import Mathlib

/-!
Verification development for the conversational pipeline of a Flask-based
Singapore map application (`app.py`).

The chat pipeline (`chat_api`), the context builders
(`_build_dengue_context`, `_build_planning_context`), the rule-based intent
extractor (`_classify_intents`), the tool-call response parser
(`_azure_openai_chat_with_tools`) and the welcome composer
(`welcome_message`) are shallowly embedded as executable Lean functions.
Network-dependent inputs (upstream feature fetches and the two model-backend
calls) are passed in explicitly as data, so every function here is pure.

Strings are handled at the `List Char` level where the source uses Python
string operations; the embedding of `str.lower`, `str.strip`, substring
containment, `str.splitlines`, `"sep".join`, and the three regular
expressions used by the source is spelled out below.  ASCII behaviour of
the Python operations is modelled exactly; the Unicode-only corners of
`re`/`str.lower` do not arise on the data the program manipulates.
-/

namespace NeaSgMap

/-- Python whitespace class `\s` (ASCII part): space, tab, LF, CR, VT, FF. -/
def isPyWhite (c : Char) : Bool :=
  c == ' ' || c == '\t' || c == '\n' || c == '\r' || c == '\x0b' || c == '\x0c'

/-- Embedding of Python `str.lower()` (ASCII case mapping). -/
def toLowerStr (s : String) : String :=
  ⟨s.data.map Char.toLower⟩

/-- Embedding of Python `str.strip()`: drop leading and trailing whitespace. -/
def stripStr (s : String) : String :=
  ⟨((s.data.dropWhile isPyWhite).reverse.dropWhile isPyWhite).reverse⟩

/-- Boolean infix test on character lists: `needle` occurs contiguously in
`hay`. -/
def infixOfCh (needle : List Char) : List Char → Bool
  | [] => needle.isEmpty
  | c :: rest => needle.isPrefixOf (c :: rest) || infixOfCh needle rest

/-- Embedding of Python `needle in hay` substring containment. -/
def containsSub (hay needle : String) : Bool :=
  infixOfCh needle.data hay.data

/-- Embedding of Python `s.startswith(pre)`. -/
def startsWithStr (s pre : String) : Bool :=
  pre.data.isPrefixOf s.data

/-- Embedding of Python slicing `s[n:]` for a nonnegative `n`. -/
def strDrop (s : String) (n : Nat) : String :=
  ⟨s.data.drop n⟩

/-- Auxiliary scanner for `splitLinesCh`; the accumulator holds the current
line reversed.  A trailing newline produces no final empty line, as in
Python `str.splitlines()`. -/
def splitLinesAux : List Char → List Char → List (List Char)
  | acc, [] => [acc.reverse]
  | acc, ['\n'] => [acc.reverse]
  | acc, '\n' :: rest => acc.reverse :: splitLinesAux [] rest
  | acc, c :: rest => splitLinesAux (c :: acc) rest

/-- Embedding of Python `str.splitlines()` restricted to `'\n'` terminators,
the only line terminator the program ever produces. -/
def splitLinesCh : List Char → List (List Char)
  | [] => []
  | c :: rest => splitLinesAux [] (c :: rest)

/-- `splitLines` at the `String` level. -/
def splitLines (s : String) : List String :=
  (splitLinesCh s.data).map (fun l => ⟨l⟩)

/-- Embedding of Python `sep.join(parts)`. -/
def joinSep (sep : String) : List String → String
  | [] => ""
  | [a] => a
  | a :: b :: rest => a ++ sep ++ joinSep sep (b :: rest)

/-- Value of `int(...)` on a string of decimal digits. -/
def digitsToNat (ds : List Char) : Nat :=
  ds.foldl (fun acc c => acc * 10 + (c.toNat - '0'.toNat)) 0

/-- Python regex word character `\w` (ASCII part). -/
def isWordChar (c : Char) : Bool :=
  c.isAlphanum || c == '_'

/-- A `\b` word boundary holds before the scan position given the previous
character (`none` at the start of the string). -/
def boundaryOk : Option Char → Bool
  | none => true
  | some c => !isWordChar c

/-- A `\b` word boundary holds at the start of the remaining input. -/
def headBoundary : List Char → Bool
  | [] => true
  | c :: _ => !isWordChar c

/-- The literal word `w` matches at the head of `s` and is followed by a
word boundary. -/
def wordAt (w : List Char) (s : List Char) : Bool :=
  w.isPrefixOf s && headBoundary (s.drop w.length)

/-- Scanner for `re.search(r"\b(w1|w2|...)\b", s)` where every alternative
is a plain word: try a boundary-delimited match at each position. -/
def searchWords (ws : List (List Char)) : Option Char → List Char → Bool
  | prev, [] => boundaryOk prev && ws.any (fun w => wordAt w [])
  | prev, c :: rest =>
    (boundaryOk prev && ws.any (fun w => wordAt w (c :: rest)))
      || searchWords ws (some c) rest

/-- `re.search(r"\b(...)\b", s) is not None` for an alternation of plain
words. -/
def wordRegex (ws : List String) (s : String) : Bool :=
  searchWords (ws.map String.data) none s.data

/-- Tail of `remove\s+all\b`: after the mandatory first whitespace, skip
further whitespace greedily and require the literal `all` followed by a
word boundary (greedy = backtracking here since `all` starts with a
non-space character). -/
def allAfterSpaces : List Char → Bool
  | [] => false
  | c :: rest =>
    if isPyWhite c then allAfterSpaces rest
    else "all".data.isPrefixOf (c :: rest) && headBoundary ((c :: rest).drop 3)

/-- `remove\s+all\b` matches at the head of `s`. -/
def removeAllAt (s : List Char) : Bool :=
  "remove".data.isPrefixOf s &&
    (match s.drop 6 with
     | [] => false
     | c :: rest => isPyWhite c && allAfterSpaces rest)

/-- One alternative of `\b(clear|reset|remove\s+all)\b` matches at the head
of `s` (the closing boundary is checked per alternative, the opening one by
the scanner). -/
def clearAt (s : List Char) : Bool :=
  wordAt "clear".data s || wordAt "reset".data s || removeAllAt s

/-- Position scanner for the clear/reset/remove-all regex. -/
def searchClear : Option Char → List Char → Bool
  | _, [] => false
  | prev, c :: rest =>
    (boundaryOk prev && clearAt (c :: rest)) || searchClear (some c) rest

/-- `re.search(r"\b(clear|reset|remove\s+all)\b", text) is not None`. -/
def hasClearPattern (text : String) : Bool :=
  searchClear none text.data

/-- Matcher for the total-extraction regexes `:\s*(\d+)\s*unique` and
`:\s*(\d+)\s*total` at the head of the input: a colon, greedy whitespace,
a maximal digit run (the capture), greedy whitespace, then the keyword.
The character classes are disjoint, so greedy matching needs no
backtracking. -/
def matchTotalAt (kw : List Char) : List Char → Option Nat
  | ':' :: rest =>
    let r1 := rest.dropWhile isPyWhite
    let ds := r1.takeWhile Char.isDigit
    if ds.isEmpty then none
    else
      let r2 := (r1.dropWhile Char.isDigit).dropWhile isPyWhite
      if kw.isPrefixOf r2 then some (digitsToNat ds) else none
  | _ => none

/-- Leftmost match of the total-extraction regex: `int(m.group(1))` when
`m = re.search(...)` succeeds, `none` otherwise. -/
def searchTotal (kw : List Char) : List Char → Option Nat
  | [] => none
  | c :: rest =>
    match matchTotalAt kw (c :: rest) with
    | some n => some n
    | none => searchTotal kw rest

/-- `searchTotal` at the `String` level. -/
def searchTotalStr (kw : String) (s : String) : Option Nat :=
  searchTotal kw.data s.data

/-- Python truthiness filter on an optional string: `None` and `""` are
falsy. -/
def optTruthy : Option String → Option String
  | none => none
  | some s => if s = "" then none else some s

/-- `a if a else b` on optional strings (strict, matching the sequential
reassignments of `reply` in the source). -/
def orElseO (a b : Option String) : Option String :=
  match a with
  | some x => some x
  | none => b

/-! ## Data model -/

/-- A map-control intent, as built by both the rule-based extractor and the
tool-call parser: `{"type": ..., "layer": ..., "fit": ...}` where the last
two keys may be absent. -/
structure Intent where
  type : String
  layer : Option String := none
  fit : Option Bool := none
deriving DecidableEq

/-- Result of `_azure_openai_chat_with_tools` when it returns a dict:
`{"reply": str-or-None, "intents": [...]}`. -/
structure ToolResult where
  reply : Option String
  intents : List Intent
deriving DecidableEq

/-- Result of the whole `/api/chat` endpoint body:
`{"reply": ..., "intents": [...]}`. -/
structure ChatResult where
  reply : String
  intents : List Intent
deriving DecidableEq

/-- One entry of `choices[0].message.tool_calls` (or of the legacy
`function_call`), after JSON decoding of its `arguments` string: `name` is
`fn.get("name")`, `layer` is `args.get("layer")` when that value is a
string, and `fit` is `args.get("fit")` when that value is a boolean.  A
failed `json.loads` yields `args = {}`, i.e. `layer = none, fit = none`. -/
structure ToolCall where
  name : Option String
  layer : Option String := none
  fit : Option Bool := none
deriving DecidableEq

/-- `choices[0].message` of a tool-calling model response. -/
structure ModelMessage where
  content : Option String
  tool_calls : List ToolCall := []
  function_call : Option ToolCall := none
deriving DecidableEq

/-- Properties of one fetched dengue feature, restricted to the four
candidate name keys inspected by `_build_dengue_context`; `none` models an
absent key. -/
structure DengueFeature where
  dESCRIPTION : Option String := none
  nAME : Option String := none
  descriptionMixed : Option String := none
  nameMixed : Option String := none
deriving DecidableEq

/-- Properties of one fetched planning-area feature: the single `name`
property read by `_build_planning_context`. -/
structure PlanningFeature where
  name : Option String := none
deriving DecidableEq

/-- The upstream data state: the feature lists the two internal fetch
helpers would return (they absorb every failure into `[]`). -/
structure Upstream where
  dengue : List DengueFeature
  planning : List PlanningFeature

/-- Environment of one `/api/chat` request: the outcome of the tool-calling
model call (`none` when the backend is unconfigured or the call failed),
the outcome of the plain model call `_azure_openai_reply` on the enriched
message, and the upstream data state. -/
structure ChatEnv where
  toolOut : Option ToolResult
  azure : Option String
  up : Upstream

/-! ## Layer registry (`get_layer_registry`) -/

/-- Static metadata of one registered layer.  `totalKw` is the keyword of
the layer's `total_regex`, which for both registry entries has the shape
colon, `\s*`, `(\d+)`, `\s*`, keyword. -/
structure LayerMeta where
  title : String
  synonyms : List String
  totalKw : String
deriving DecidableEq

/-- The registry, in insertion order: `dengue` then `planning`. -/
def registryList : List (String × LayerMeta) :=
  [("dengue",
    { title := "Dengue Hotspots",
      synonyms := ["dengue", "hotspot", "cluster", "clusters"],
      totalKw := "unique" }),
   ("planning",
    { title := "Planning Areas (2019)",
      synonyms := ["planning area", "planning", "boundary", "boundaries"],
      totalKw := "total" })]

/-- `list(get_layer_registry().keys())`. -/
def layerNames : List String :=
  registryList.map Prod.fst

/-- `str(meta.get("title") or key.title())` for a key of the registry (the
fallback to `key.title()` is unreachable for registry keys and is modelled
by returning the key itself). -/
def titleOf (key : String) : String :=
  match registryList.find? (fun km => km.1 = key) with
  | some km => km.2.title
  | none => key

/-- Keyword of the layer's `total_regex`. -/
def kwOf (key : String) : String :=
  match registryList.find? (fun km => km.1 = key) with
  | some km => km.2.totalKw
  | none => ""

/-! ## Context builders -/

/-- Name resolution of `_build_dengue_context`:
`p.get('DESCRIPTION') or p.get('NAME') or p.get('Description') or
p.get('Name')`, kept only when truthy. -/
def resolveDengueName (f : DengueFeature) : Option String :=
  orElseO (optTruthy f.dESCRIPTION)
    (orElseO (optTruthy f.nAME)
      (orElseO (optTruthy f.descriptionMixed) (optTruthy f.nameMixed)))

/-- The resolved dengue name sequence, in fetch order. -/
def dengueNames (feats : List DengueFeature) : List String :=
  feats.filterMap resolveDengueName

/-- Name resolution of `_build_planning_context`: `p.get('name')`, kept
only when truthy. -/
def planningNames (feats : List PlanningFeature) : List String :=
  feats.filterMap (fun f => optTruthy f.name)

/-- The de-duplication loop shared by both context builders: `seen` set and
`unique` list, appending each name not seen before. -/
def dedupAux : List String → List String → List String
  | _, [] => []
  | seen, n :: rest =>
    if seen.contains n then dedupAux seen rest
    else n :: dedupAux (n :: seen) rest

/-- De-duplicate while preserving first-seen order. -/
def dedupFirstSeen (names : List String) : List String :=
  dedupAux [] names

/-- The bulleted sample lines `- {n}` for the first `max_items` unique
names. -/
def bulletsOfNames (names : List String) (maxItems : Nat) : List String :=
  ((dedupFirstSeen names).take maxItems).map (fun n => "- " ++ n)

/-- Body of `_build_dengue_context` after name resolution. -/
def dengueContextOfNames (names : List String) (maxItems : Nat) : String :=
  let unique := dedupFirstSeen names
  let sample := unique.take maxItems
  "Latest dengue clusters: " ++ toString unique.length ++ " unique clusters."
    ++ "\n" ++ "List (first " ++ toString sample.length ++ "):"
    ++ "\n" ++ joinSep "\n" (bulletsOfNames names maxItems)

/-- `_build_dengue_context(max_items)`. -/
def dengueContext (feats : List DengueFeature) (maxItems : Nat) : String :=
  dengueContextOfNames (dengueNames feats) maxItems

/-- Body of `_build_planning_context` after name resolution. -/
def planningContextOfNames (year : String) (names : List String)
    (maxItems : Nat) : String :=
  let unique := dedupFirstSeen names
  let sample := unique.take maxItems
  "Planning areas (year=" ++ year ++ "): " ++ toString unique.length
    ++ " total."
    ++ "\n" ++ "List (first " ++ toString sample.length ++ "):"
    ++ "\n" ++ joinSep "\n" (bulletsOfNames names maxItems)

/-- `_planning_context_builder(max_items)`, i.e.
`_build_planning_context(max_items, year="2019")`. -/
def planningContext (feats : List PlanningFeature) (maxItems : Nat) : String :=
  planningContextOfNames "2019" (planningNames feats) maxItems

/-- Number of distinct resolved dengue names (the reported total). -/
def dengueTotal (feats : List DengueFeature) : Nat :=
  (dedupFirstSeen (dengueNames feats)).length

/-- Number of distinct resolved planning-area names (the reported total). -/
def planningTotal (feats : List PlanningFeature) : Nat :=
  (dedupFirstSeen (planningNames feats)).length

/-- Bulleted listing of `_build_dengue_context`. -/
def dengueBullets (feats : List DengueFeature) (maxItems : Nat) : List String :=
  bulletsOfNames (dengueNames feats) maxItems

/-- Bulleted listing of `_build_planning_context`. -/
def planningBullets (feats : List PlanningFeature) (maxItems : Nat) :
    List String :=
  bulletsOfNames (planningNames feats) maxItems

/-- Dispatch of `meta["context_builder"](max_items)` for the two registered
layers. -/
def buildContext (u : Upstream) (key : String) (maxItems : Nat) : String :=
  if key = "dengue" then dengueContext u.dengue maxItems
  else if key = "planning" then planningContext u.planning maxItems
  else ""

/-! ## Rule-based intent extractor (`_classify_intents`) -/

/-- `message.lower().strip()`. -/
def classifyText (message : String) : String :=
  stripStr (toLowerStr message)

/-- The fixed hide vocabulary. -/
def hideWords : List String :=
  ["hide", "off", "remove", "turn off", "disable"]

/-- The fixed show vocabulary (computed by the source but never used for
the polarity decision, which defaults to show). -/
def showWords : List String :=
  ["show", "on", "display", "enable", "where", "see"]

/-- `wants_hide`: some hide-vocabulary word occurs as a substring. -/
def wantsHide (text : String) : Bool :=
  hideWords.any (fun w => containsSub text w)

/-- `wants_show` (dead in the source: the polarity used is `wants_hide`). -/
def wantsShow (text : String) : Bool :=
  showWords.any (fun w => containsSub text w) || !wantsHide text

/-- `_classify_intents(message)`. -/
def classifyIntents (message : String) : List Intent :=
  let text := classifyText message
  let clearPart :=
    if hasClearPattern text then [({ type := "clear_all" } : Intent)] else []
  clearPart ++ registryList.flatMap (fun km =>
    if (km.1 :: km.2.synonyms).any (fun s => containsSub text s) then
      [{ type := if wantsHide text then "hide_layer" else "show_layer",
         layer := some km.1 }]
    else [])

/-! ## Tool-call response parsing (`_azure_openai_chat_with_tools`) -/

/-- Parsing of one entry of `message.tool_calls`: unknown layer keys are
dropped, `fit` is attached to `show_layer` when it decoded to a boolean,
`clear_all` ignores its arguments, unknown action names are skipped. -/
def parseToolCall (c : ToolCall) : List Intent :=
  if c.name = some "show_layer" then
    match c.layer with
    | some l =>
      if layerNames.contains l then
        [{ type := "show_layer", layer := some l, fit := c.fit }]
      else []
    | none => []
  else if c.name = some "hide_layer" then
    match c.layer with
    | some l =>
      if layerNames.contains l then [{ type := "hide_layer", layer := some l }]
      else []
    | none => []
  else if c.name = some "clear_all" then [{ type := "clear_all" }]
  else []

/-- Parsing of the legacy single `message.function_call` shape (no `fit`
handling). -/
def parseFunctionCall (c : ToolCall) : List Intent :=
  if c.name = some "show_layer" then
    match c.layer with
    | some l =>
      if layerNames.contains l then [{ type := "show_layer", layer := some l }]
      else []
    | none => []
  else if c.name = some "hide_layer" then
    match c.layer with
    | some l =>
      if layerNames.contains l then [{ type := "hide_layer", layer := some l }]
      else []
    | none => []
  else if c.name = some "clear_all" then [{ type := "clear_all" }]
  else []

/-- `(message.get("content") or "").strip() or None`. -/
def normContent : Option String → Option String
  | none => none
  | some s => if stripStr s = "" then none else some (stripStr s)

/-- The success path of `_azure_openai_chat_with_tools` on
`choices[0].message`: normalized free text, intents parsed from
`tool_calls`, and the legacy `function_call` consulted only when the loop
produced no intent. -/
def parseToolMessage (m : ModelMessage) : ToolResult :=
  let intents := m.tool_calls.flatMap parseToolCall
  { reply := normContent m.content,
    intents :=
      if intents.isEmpty then
        match m.function_call with
        | some fc => parseFunctionCall fc
        | none => []
      else intents }

/-- A show/hide invocation the parser drops: its decoded `layer` argument
is not a registry key (or absent). -/
def droppedCall (c : ToolCall) : Bool :=
  (c.name = some "show_layer" || c.name = some "hide_layer") &&
    (match c.layer with
     | some l => !layerNames.contains l
     | none => true)

/-- A show/hide intent carries a registry layer key (other intent types
are unconstrained). -/
def intentLayerValid (i : Intent) : Bool :=
  if i.type = "show_layer" || i.type = "hide_layer" then
    match i.layer with
    | some l => layerNames.contains l
    | none => false
  else true

/-! ## Chat endpoint (`chat_api`) -/

/-- `_detect_layers(txt)`: keys whose key/synonyms occur in the text, or
every registry key when none matched. -/
def detectLayers (low : String) : List String :=
  let keys := registryList.filterMap (fun km =>
    if (km.1 :: km.2.synonyms).any (fun s => containsSub low s) then some km.1
    else none)
  if keys.isEmpty then registryList.map Prod.fst else keys

/-- One iteration of the list-flow loop: build the layer's context with
`max_items = 300`, keep the lines starting with `- `, and when any exist
render the titled section from the first `100` of them. -/
def listEntry (u : Upstream) (key : String) : Option String :=
  let ctx := buildContext u key 300
  let lines := (splitLines ctx).filter (fun ln => startsWithStr ln "- ")
  if lines.isEmpty then none
  else some (titleOf key ++ ":\n" ++ joinSep "\n" (lines.take 100))

/-- The `bucket` of the list flow over the detected target layers. -/
def listBucket (u : Upstream) (low : String) : List String :=
  (detectLayers low).filterMap (listEntry u)

/-- One iteration of the summarize-flow loop: context with
`max_items = 50`, total via the layer's `total_regex` (defaulting to 0),
up to 5 example names from the bulleted lines, and a sentence only when
the total is nonzero. -/
def summEntry (u : Upstream) (key : String) : Option String :=
  let ctx := buildContext u key 50
  let total := (searchTotalStr (kwOf key) ctx).getD 0
  let examples :=
    (((splitLines ctx).filter (fun ln => startsWithStr ln "- ")).map
      (fun ln => strDrop ln 2)).take 5
  if total = 0 then none
  else
    some (titleOf key ++ ": " ++ toString total ++ " items." ++
      (if examples.isEmpty then ""
       else " Examples: " ++ joinSep ", " examples ++ "."))

/-- The `pieces` of the summarize flow over the detected target layers. -/
def summBucket (u : Upstream) (low : String) : List String :=
  (detectLayers low).filterMap (summEntry u)

/-- List flow of the tool-calling branch: guarded by
`re.search(r"\b(list|show)\b", low)`, yields a reply only when the bucket
is nonempty. -/
def toolListOpt (u : Upstream) (low : String) : Option String :=
  if wordRegex ["list", "show"] low then
    let bucket := listBucket u low
    if bucket.isEmpty then none else some (joinSep "\n\n" bucket)
  else none

/-- Summarize flow of the tool-calling branch: guarded by
`re.search(r"\b(summarize|summary)\b", low)`. -/
def toolSummOpt (u : Upstream) (low : String) : Option String :=
  if wordRegex ["summarize", "summary"] low then
    let pieces := summBucket u low
    if pieces.isEmpty then none else some (joinSep " " pieces)
  else none

/-- Deterministic answers of the non-tool branch: `if` list flow `elif`
summarize flow (the summarize pattern is not even tried when the
list/show pattern matched). -/
def detOpt (u : Upstream) (low : String) : Option String :=
  if wordRegex ["list", "show"] low then
    let bucket := listBucket u low
    if bucket.isEmpty then none else some (joinSep "\n\n" bucket)
  else toolSummOpt u low

/-- The fixed per-intent phrase of the non-tool branch. -/
def phraseOf (i : Intent) : Option String :=
  if i.type = "show_layer" && i.layer = some "dengue" then
    some "Showing dengue hotspots on the map."
  else if i.type = "hide_layer" && i.layer = some "dengue" then
    some "Hiding dengue hotspots."
  else if i.type = "show_layer" && i.layer = some "planning" then
    some "Showing planning area boundaries."
  else if i.type = "hide_layer" && i.layer = some "planning" then
    some "Hiding planning area boundaries."
  else if i.type = "clear_all" then some "Clearing map overlays."
  else none

/-- `phrases` composition: a reply only when some phrase was produced. -/
def phrasesOpt (intents : List Intent) : Option String :=
  let phrases := intents.filterMap phraseOf
  if phrases.isEmpty then none else some (joinSep " " phrases)

/-- The final static message of the non-tool branch. -/
def staticReply : String :=
  "Here to help with dengue hotspots and planning areas."

/-- `if not reply: reply = static` (Python truthiness: `None` and `""`
both fall back). -/
def finalize (r : Option String) : String :=
  match r with
  | none => staticReply
  | some s => if s = "" then staticReply else s

/-- `chat_api` on a request whose JSON body carried the given `message`,
in the given environment.  The enriched grounding message only feeds the
two model calls, whose outcomes are part of the environment, so it does
not appear here. -/
def chatApi (env : ChatEnv) (message : String) : ChatResult :=
  if message = "" then { reply := "Please type a question.", intents := [] }
  else
    let low := toLowerStr message
    match env.toolOut with
    | some t =>
      let intents :=
        if t.intents.isEmpty then classifyIntents message else t.intents
      let r := optTruthy t.reply
      let r := orElseO r (optTruthy env.azure)
      let r := orElseO r (toolListOpt env.up low)
      let r := orElseO r (toolSummOpt env.up low)
      { reply := r.getD "", intents := intents }
    | none =>
      let intents := classifyIntents message
      let r := detOpt env.up low
      let r :=
        if r.isNone && !intents.isEmpty then phrasesOpt intents else r
      let r := orElseO r (optTruthy env.azure)
      { reply := finalize r, intents := intents }

/-! ## Welcome composer (`welcome_message`) -/

/-- The `bits` of the no-model welcome fallback: for every registered
layer, build its context with `max_items = 30`, and when the layer's
`total_regex` matches, record `"{total} {title.lower()}"`. -/
def welcomeFallbackBits (u : Upstream) : List String :=
  registryList.filterMap (fun km =>
    match searchTotalStr km.2.totalKw (buildContext u km.1 30) with
    | some total => some (toString total ++ " " ++ toLowerStr km.2.title)
    | none => none)

/-- The fixed invitational preamble of the welcome fallback. -/
def welcomeIntro : String :=
  "Welcome. Explore the map to see available layers, and ask the assistant for quick summaries or lists."

/-- The no-model welcome fallback reply. -/
def welcomeFallback (u : Upstream) : String :=
  let bits := welcomeFallbackBits u
  if bits.isEmpty then welcomeIntro
  else
    welcomeIntro ++ " For context, currently tracked: "
      ++ joinSep ", " bits ++ "."

/-- `welcome_message` given the outcome of the plain model call on the
welcome prompt (`none` when unconfigured or failed). -/
def welcomeReply (az : Option String) (u : Upstream) : String :=
  match optTruthy az with
  | some r => r
  | none => welcomeFallback u

/-! ## Helper lemmas -/

theorem length_pos_of_ne_empty (s : String) (h : s ≠ "") : 0 < s.length := by
  cases s with
  | mk data =>
    cases data with
    | nil => exact absurd rfl h
    | cons c cs => simp [String.length]

theorem ne_empty_of_length_pos (s : String) (h : 0 < s.length) : s ≠ "" := by
  intro he
  rw [he] at h
  exact Nat.lt_irrefl 0 (by simp at h)

theorem append_ne_empty_left (x y : String) (h : x ≠ "") : x ++ y ≠ "" := by
  apply ne_empty_of_length_pos
  rw [String.length_append]
  exact Nat.lt_of_lt_of_le (length_pos_of_ne_empty x h) (Nat.le_add_right _ _)

theorem append_ne_empty_right (x y : String) (h : y ≠ "") : x ++ y ≠ "" := by
  apply ne_empty_of_length_pos
  rw [String.length_append]
  exact Nat.lt_of_lt_of_le (length_pos_of_ne_empty y h) (Nat.le_add_left _ _)

theorem joinSep_ne_empty_of_head (sep a : String) (l : List String)
    (h : a ≠ "") : joinSep sep (a :: l) ≠ "" := by
  cases l with
  | nil => exact h
  | cons b t => exact append_ne_empty_left _ _ (append_ne_empty_left _ _ h)

theorem joinSep_infix_of_mem (sep : String) (l : List String) (a : String)
    (h : a ∈ l) : a.data <:+: (joinSep sep l).data := by
  induction l with
  | nil => exact absurd h (List.not_mem_nil a)
  | cons x t ih =>
    cases t with
    | nil =>
      rcases List.mem_cons.mp h with rfl | h'
      · exact List.infix_refl _
      · exact absurd h' (List.not_mem_nil a)
    | cons y t' =>
      rcases List.mem_cons.mp h with rfl | h'
      · show a.data <:+: (a ++ sep ++ joinSep sep (y :: t')).data
        rw [String.append_assoc, String.data_append]
        exact (List.prefix_append _ _).isInfix
      · have h1 := ih h'
        show a.data <:+: (x ++ sep ++ joinSep sep (y :: t')).data
        rw [String.append_assoc, String.data_append, String.data_append]
        exact h1.trans ((List.suffix_append _ _).isInfix.trans
          (List.suffix_append _ _).isInfix)

theorem splitLinesAux_head (s : List Char) : ∀ acc, ∃ r tl,
    splitLinesAux acc s = (acc.reverse ++ r) :: tl := by
  induction s with
  | nil => intro acc; exact ⟨[], [], by simp [splitLinesAux]⟩
  | cons c rest ih =>
    intro acc
    by_cases hc : c = '\n'
    · subst hc
      cases rest with
      | nil => exact ⟨[], [], by simp [splitLinesAux]⟩
      | cons d ds =>
        exact ⟨[], splitLinesAux [] (d :: ds), by simp [splitLinesAux]⟩
    · obtain ⟨r, tl, hr⟩ := ih (c :: acc)
      refine ⟨c :: r, tl, ?_⟩
      rw [show splitLinesAux acc (c :: rest) = splitLinesAux (c :: acc) rest from by
        simp [splitLinesAux, hc]]
      rw [hr]
      simp

theorem splitLinesAux_bullet (s : List Char) : ∀ (acc pre post : List Char),
    s = pre ++ '\n' :: '-' :: ' ' :: post →
    ∃ l ∈ splitLinesAux acc s, ['-', ' '].isPrefixOf l = true := by
  induction s with
  | nil =>
    intro acc pre post h
    exact absurd h (by simp)
  | cons c rest ih =>
    intro acc pre post h
    cases pre with
    | nil =>
      simp only [List.nil_append] at h
      injection h with hc hrest
      subst hc
      subst hrest
      obtain ⟨r, tl, hr⟩ := splitLinesAux_head post [' ', '-']
      refine ⟨['-', ' '] ++ r, ?_, ?_⟩
      · have hred : splitLinesAux acc ('\n' :: '-' :: ' ' :: post)
            = acc.reverse :: splitLinesAux [' ', '-'] post := rfl
        rw [hred, hr]
        exact List.mem_cons_of_mem _ (List.mem_cons_self _ _)
      · rw [List.isPrefixOf_iff_prefix]
        exact List.prefix_append _ _
    | cons d pre' =>
      injection h with hc hrest
      by_cases hnl : c = '\n'
      · subst hnl
        cases hre : rest with
        | nil =>
          rw [hre] at hrest
          exact absurd hrest.symm (by simp)
        | cons e es =>
          subst hre
          have hred : splitLinesAux acc ('\n' :: e :: es)
              = acc.reverse :: splitLinesAux [] (e :: es) := by
            simp [splitLinesAux]
          obtain ⟨l, hl, hp⟩ := ih [] pre' post hrest
          exact ⟨l, by rw [hred]; exact List.mem_cons_of_mem _ hl, hp⟩
      · have hred : splitLinesAux acc (c :: rest) = splitLinesAux (c :: acc) rest := by
          simp [splitLinesAux, hnl]
        obtain ⟨l, hl, hp⟩ := ih (c :: acc) pre' post hrest
        exact ⟨l, by rw [hred]; exact hl, hp⟩

theorem splitLines_bullet_ne_nil (s : String)
    (h : ∃ pre post, s.data = pre ++ '\n' :: '-' :: ' ' :: post) :
    (splitLines s).filter (fun ln => startsWithStr ln "- ") ≠ [] := by
  obtain ⟨pre, post, hdec⟩ := h
  obtain ⟨l, hmem, hpref⟩ : ∃ l ∈ splitLinesCh s.data,
      ['-', ' '].isPrefixOf l = true := by
    cases hs : s.data with
    | nil =>
      rw [hs] at hdec
      exact absurd hdec.symm (by simp)
    | cons c rest =>
      rw [hs] at hdec
      have hb := splitLinesAux_bullet (c :: rest) [] pre post hdec
      simpa [splitLinesCh] using hb
  intro hnil
  have hmem2 : (⟨l⟩ : String) ∈ splitLines s := List.mem_map.mpr ⟨l, hmem, rfl⟩
  have hin : (⟨l⟩ : String)
      ∈ (splitLines s).filter (fun ln => startsWithStr ln "- ") :=
    List.mem_filter.mpr ⟨hmem2, hpref⟩
  rw [hnil] at hin
  exact absurd hin (List.not_mem_nil _)

theorem dengueContextOfNames_cons_decomp (n : String) (ns : List String) :
    ∃ pre post, (dengueContextOfNames (n :: ns) 300).data
      = pre ++ '\n' :: '-' :: ' ' :: post := by
  obtain ⟨t, ht⟩ : ∃ t, (joinSep "\n" (bulletsOfNames (n :: ns) 300)).data
      = '-' :: ' ' :: t := by
    rw [show bulletsOfNames (n :: ns) 300
        = ("- " ++ n) :: ((dedupAux [n] ns).take 299).map (fun m => "- " ++ m)
      from rfl]
    cases ((dedupAux [n] ns).take 299).map (fun m => "- " ++ m) with
    | nil => exact ⟨n.data, rfl⟩
    | cons b bs =>
      exact ⟨(n.data ++ ['\n']) ++ (joinSep "\n" (b :: bs)).data, rfl⟩
  refine ⟨("Latest dengue clusters: "
      ++ toString (dedupFirstSeen (n :: ns)).length ++ " unique clusters."
      ++ "\n" ++ "List (first "
      ++ toString ((dedupFirstSeen (n :: ns)).take 300).length ++ "):").data,
    t, ?_⟩
  rw [show dengueContextOfNames (n :: ns) 300
      = ("Latest dengue clusters: "
          ++ toString (dedupFirstSeen (n :: ns)).length ++ " unique clusters."
          ++ "\n" ++ "List (first "
          ++ toString ((dedupFirstSeen (n :: ns)).take 300).length ++ "):")
        ++ "\n" ++ joinSep "\n" (bulletsOfNames (n :: ns) 300) from rfl]
  rw [String.data_append, String.data_append, ht]
  simp

theorem listEntry_dengue_some (u : Upstream) (n : String) (ns : List String)
    (h : dengueNames u.dengue = n :: ns) :
    listEntry u "dengue" = some (titleOf "dengue" ++ ":\n" ++ joinSep "\n"
      (((splitLines (buildContext u "dengue" 300)).filter
        (fun ln => startsWithStr ln "- ")).take 100)) := by
  have hctx : buildContext u "dengue" 300 = dengueContextOfNames (n :: ns) 300 := by
    show dengueContextOfNames (dengueNames u.dengue) 300 = _
    rw [h]
  have hdec : ∃ pre post, (buildContext u "dengue" 300).data
      = pre ++ '\n' :: '-' :: ' ' :: post := by
    rw [hctx]
    exact dengueContextOfNames_cons_decomp n ns
  have hlines : (splitLines (buildContext u "dengue" 300)).filter
      (fun ln => startsWithStr ln "- ") ≠ [] :=
    splitLines_bullet_ne_nil _ hdec
  simp only [listEntry]
  rw [if_neg (by simp [List.isEmpty_eq_false.mpr hlines])]

theorem dengue_section_ne_phrase (x : String) :
    titleOf "dengue" ++ ":\n" ++ x ≠ "Showing dengue hotspots on the map." := by
  intro he
  have hpre : (titleOf "dengue" ++ ":\n").data
      <+: ("Showing dengue hotspots on the map." : String).data := by
    rw [← he, String.data_append]
    exact List.prefix_append _ _
  exact absurd hpre (by decide)

theorem optTruthy_some_ne (x : Option String) (s : String)
    (h : optTruthy x = some s) : s ≠ "" := by
  cases x with
  | none => exact absurd h (by simp [optTruthy])
  | some v =>
    by_cases hv : v = ""
    · simp [optTruthy, hv] at h
    · simp only [optTruthy, if_neg hv, Option.some_inj] at h
      exact h ▸ hv

theorem orElseO_eq_none (a b : Option String) (h : orElseO a b = none) :
    a = none ∧ b = none := by
  cases a with
  | none => exact ⟨rfl, h⟩
  | some x => exact absurd h (by simp [orElseO])

theorem orElseO_eq_some (a b : Option String) (s : String)
    (h : orElseO a b = some s) : a = some s ∨ (a = none ∧ b = some s) := by
  cases a with
  | none => exact Or.inr ⟨rfl, h⟩
  | some x => exact Or.inl h

theorem listEntry_some_ne (u : Upstream) (k x : String)
    (h : listEntry u k = some x) : x ≠ "" := by
  simp only [listEntry] at h
  split at h
  · exact absurd h (by simp)
  · rw [Option.some_inj] at h
    exact h ▸ append_ne_empty_left _ _ (append_ne_empty_right _ _ (by decide))

theorem summEntry_some_ne (u : Upstream) (k x : String)
    (h : summEntry u k = some x) : x ≠ "" := by
  simp only [summEntry] at h
  split at h
  · exact absurd h (by simp)
  · rw [Option.some_inj] at h
    exact h ▸ append_ne_empty_left _ _ (append_ne_empty_left _ _
      (append_ne_empty_left _ _ (append_ne_empty_right _ _ (by decide))))

theorem toolListOpt_some_ne (u : Upstream) (low s : String)
    (h : toolListOpt u low = some s) : s ≠ "" := by
  simp only [toolListOpt] at h
  split at h
  · cases hb : listBucket u low with
    | nil => rw [hb] at h; simp at h
    | cons b t =>
      rw [hb] at h
      have hbmem : b ∈ listBucket u low := by rw [hb]; exact List.mem_cons_self b t
      obtain ⟨k, _, hk⟩ := List.mem_filterMap.mp hbmem
      simp at h
      subst h
      exact joinSep_ne_empty_of_head _ _ _ (listEntry_some_ne u k b hk)
  · exact absurd h (by simp)

theorem toolSummOpt_some_ne (u : Upstream) (low s : String)
    (h : toolSummOpt u low = some s) : s ≠ "" := by
  simp only [toolSummOpt] at h
  split at h
  · cases hb : summBucket u low with
    | nil => rw [hb] at h; simp at h
    | cons b t =>
      rw [hb] at h
      have hbmem : b ∈ summBucket u low := by rw [hb]; exact List.mem_cons_self b t
      obtain ⟨k, _, hk⟩ := List.mem_filterMap.mp hbmem
      simp at h
      subst h
      exact joinSep_ne_empty_of_head _ _ _ (summEntry_some_ne u k b hk)
  · exact absurd h (by simp)

theorem finalize_ne_empty (r : Option String) : finalize r ≠ "" := by
  cases r with
  | none => simp [finalize, staticReply]
  | some s =>
    by_cases hs : s = ""
    · simp [finalize, hs, staticReply]
    · simp [finalize, hs]

/-- `t.reply` of a possibly absent tool-call result. -/
def toolReplyOf : Option ToolResult → Option String
  | none => none
  | some t => t.reply

theorem chatApi_tool (t : ToolResult) (az : Option String) (u : Upstream)
    (msg : String) (h : ¬ msg = "") :
    chatApi ⟨some t, az, u⟩ msg =
      { reply :=
          (orElseO (orElseO (orElseO (optTruthy t.reply) (optTruthy az))
            (toolListOpt u (toLowerStr msg))) (toolSummOpt u (toLowerStr msg))).getD "",
        intents := if t.intents.isEmpty then classifyIntents msg else t.intents } := by
  simp only [chatApi, if_neg h]

theorem chatApi_noTool (az : Option String) (u : Upstream) (msg : String)
    (h : ¬ msg = "") :
    chatApi ⟨none, az, u⟩ msg =
      { reply := finalize (orElseO
          (if (detOpt u (toLowerStr msg)).isNone && !(classifyIntents msg).isEmpty
           then phrasesOpt (classifyIntents msg)
           else detOpt u (toLowerStr msg)) (optTruthy az)),
        intents := classifyIntents msg } := by
  simp only [chatApi, if_neg h]

theorem dedupAux_sublist (l : List String) :
    ∀ seen, (dedupAux seen l).Sublist l := by
  induction l with
  | nil => intro seen; exact List.Sublist.refl []
  | cons n rest ih =>
    intro seen
    by_cases hc : seen.contains n = true
    · simp only [dedupAux, if_pos hc]
      exact (ih seen).trans (List.sublist_cons_self n rest)
    · simp only [dedupAux, if_neg hc]
      exact (ih (n :: seen)).cons_cons n

theorem dedupAux_not_mem (l : List String) :
    ∀ seen x, x ∈ seen → x ∉ dedupAux seen l := by
  induction l with
  | nil => intro seen x _ hm; exact List.not_mem_nil x hm
  | cons n rest ih =>
    intro seen x hx
    by_cases hc : seen.contains n = true
    · simp only [dedupAux, if_pos hc]
      exact ih seen x hx
    · simp only [dedupAux, if_neg hc]
      intro hm
      rcases List.mem_cons.mp hm with rfl | hm'
      · exact hc (List.elem_iff.mpr hx)
      · exact ih (n :: seen) x (List.mem_cons_of_mem n hx) hm'

theorem dedupAux_nodup (l : List String) :
    ∀ seen, (dedupAux seen l).Nodup := by
  induction l with
  | nil => intro seen; exact List.nodup_nil
  | cons n rest ih =>
    intro seen
    by_cases hc : seen.contains n = true
    · simp only [dedupAux, if_pos hc]; exact ih seen
    · simp only [dedupAux, if_neg hc]
      exact List.nodup_cons.mpr
        ⟨dedupAux_not_mem rest (n :: seen) n (List.mem_cons_self n seen), ih (n :: seen)⟩

theorem dedupAux_mem (l : List String) :
    ∀ seen x, x ∈ dedupAux seen l ↔ x ∈ l ∧ x ∉ seen := by
  induction l with
  | nil =>
    intro seen x
    simp [dedupAux]
  | cons n rest ih =>
    intro seen x
    by_cases hc : seen.contains n = true
    · have hn : n ∈ seen := List.elem_iff.mp hc
      simp only [dedupAux, if_pos hc]
      rw [ih seen x]
      constructor
      · rintro ⟨h1, h2⟩
        exact ⟨List.mem_cons_of_mem n h1, h2⟩
      · rintro ⟨h1, h2⟩
        rcases List.mem_cons.mp h1 with rfl | h1'
        · exact absurd hn h2
        · exact ⟨h1', h2⟩
    · simp only [dedupAux, if_neg hc]
      constructor
      · intro hm
        rcases List.mem_cons.mp hm with rfl | hm'
        · exact ⟨List.mem_cons_self x rest, fun hx => hc (List.elem_iff.mpr hx)⟩
        · obtain ⟨h1, h2⟩ := (ih (n :: seen) x).mp hm'
          exact ⟨List.mem_cons_of_mem n h1,
            fun hx => h2 (List.mem_cons_of_mem n hx)⟩
      · rintro ⟨h1, h2⟩
        rcases List.mem_cons.mp h1 with rfl | h1'
        · exact List.mem_cons_self x _
        · by_cases hxn : x = n
          · subst hxn; exact List.mem_cons_self x _
          · apply List.mem_cons_of_mem
            refine (ih (n :: seen) x).mpr ⟨h1', fun hx => ?_⟩
            rcases List.mem_cons.mp hx with h | h
            · exact hxn h
            · exact h2 h

/-- C8: the context builders' de-duplication by exact string equality
preserves first-seen order.  `[A, B, A, C]` yields `[A, B, C]`, and in
general the result is a duplicate-free sublist of the input (hence in
first-seen input order) containing exactly the input's elements. -/
theorem dedup_preserves_first_seen :
    dedupFirstSeen ["A", "B", "A", "C"] = ["A", "B", "C"]
  ∧ ∀ l : List String, (dedupFirstSeen l).Sublist l
      ∧ (dedupFirstSeen l).Nodup
      ∧ ∀ x, x ∈ dedupFirstSeen l ↔ x ∈ l := by
  refine ⟨by decide, fun l => ⟨dedupAux_sublist l [], dedupAux_nodup l [], fun x => ?_⟩⟩
  rw [dedupFirstSeen, dedupAux_mem l [] x]
  simp

/-- C6: a message whose classification text contains a registered layer's
key or one of its synonyms as a substring, and which contains no
hide-vocabulary word, makes the rule-based extractor emit a `show_layer`
intent for that layer (show is the default polarity). -/
theorem classify_default_show (msg key : String) (meta : LayerMeta)
    (hmem : (key, meta) ∈ registryList)
    (hsyn : (key :: meta.synonyms).any
      (fun s => containsSub (classifyText msg) s) = true)
    (hhide : wantsHide (classifyText msg) = false) :
    ({ type := "show_layer", layer := some key } : Intent) ∈ classifyIntents msg := by
  simp only [classifyIntents]
  apply List.mem_append_right
  apply List.mem_flatMap.mpr
  refine ⟨(key, meta), hmem, ?_⟩
  simp only [if_pos hsyn, hhide, Bool.false_eq_true, if_false, List.mem_singleton]

theorem classify_default_show_witness :
    ({ type := "show_layer", layer := some "dengue" } : Intent)
      ∈ classifyIntents "show dengue" :=
  classify_default_show "show dengue" "dengue"
    { title := "Dengue Hotspots",
      synonyms := ["dengue", "hotspot", "cluster", "clusters"],
      totalKw := "unique" }
    (by decide) (by decide) (by decide)

/-- C7: a message whose classification text matches the
clear/reset/remove-all pattern and contains a registered layer's key or a
synonym produces both a `clear_all` intent and an intent targeting that
layer; the clear check is independent of per-layer matching. -/
theorem classify_clear_nonexclusive (msg key : String) (meta : LayerMeta)
    (hmem : (key, meta) ∈ registryList)
    (hclear : hasClearPattern (classifyText msg) = true)
    (hsyn : (key :: meta.synonyms).any
      (fun s => containsSub (classifyText msg) s) = true) :
    ({ type := "clear_all" } : Intent) ∈ classifyIntents msg
  ∧ ({ type := if wantsHide (classifyText msg) then "hide_layer" else "show_layer",
       layer := some key } : Intent) ∈ classifyIntents msg := by
  constructor
  · simp only [classifyIntents]
    apply List.mem_append_left
    simp only [if_pos hclear, List.mem_singleton]
  · simp only [classifyIntents]
    apply List.mem_append_right
    apply List.mem_flatMap.mpr
    refine ⟨(key, meta), hmem, ?_⟩
    simp only [if_pos hsyn, List.mem_singleton]

theorem classify_clear_nonexclusive_witness :
    ({ type := "clear_all" } : Intent) ∈ classifyIntents "clear the dengue layer"
  ∧ ({ type := "show_layer", layer := some "dengue" } : Intent)
      ∈ classifyIntents "clear the dengue layer" :=
  classify_clear_nonexclusive "clear the dengue layer" "dengue"
    { title := "Dengue Hotspots",
      synonyms := ["dengue", "hotspot", "cluster", "clusters"],
      totalKw := "unique" }
    (by decide) (by decide) (by decide)

theorem classify_polarity (msg : String) (x : Intent)
    (hx : x ∈ classifyIntents msg) :
    x.type = "clear_all"
  ∨ x.type = (if wantsHide (classifyText msg) then "hide_layer" else "show_layer") := by
  simp only [classifyIntents] at hx
  rcases List.mem_append.mp hx with h | h
  · left
    by_cases hc : hasClearPattern (classifyText msg) = true
    · rw [if_pos hc, List.mem_singleton] at h
      rw [h]
    · rw [if_neg hc] at h
      exact absurd h (List.not_mem_nil x)
  · right
    obtain ⟨km, _, hkm⟩ := List.mem_flatMap.mp h
    by_cases hs : ((km.1 :: km.2.synonyms).any
        (fun s => containsSub (classifyText msg) s)) = true
    · rw [if_pos hs, List.mem_singleton] at hkm
      rw [hkm]
    · rw [if_neg hs] at hkm
      exact absurd hkm (List.not_mem_nil x)

/-- C10: all layer intents emitted by one call of the rule-based extractor
share a single polarity, decided once from the whole message: the result
never contains a `show_layer` intent together with a `hide_layer` one. -/
theorem classify_single_polarity (msg : String) (i j : Intent)
    (hi : i ∈ classifyIntents msg) (hj : j ∈ classifyIntents msg)
    (hshow : i.type = "show_layer") : j.type ≠ "hide_layer" := by
  have hwants : wantsHide (classifyText msg) = false := by
    rcases classify_polarity msg i hi with h | h
    · rw [hshow] at h; exact absurd h (by decide)
    · by_cases hw : wantsHide (classifyText msg) = true
      · rw [if_pos hw] at h
        rw [hshow] at h
        exact absurd h (by decide)
      · exact Bool.eq_false_iff.mpr hw
  rcases classify_polarity msg j hj with h | h
  · rw [h]; decide
  · rw [hwants] at h
    simp at h
    rw [h]; decide

theorem classify_single_polarity_witness :
    ({ type := "show_layer", layer := some "dengue" } : Intent)
      ∈ classifyIntents "show dengue"
  ∧ ({ type := "show_layer", layer := some "dengue" } : Intent).type ≠ "hide_layer" :=
  ⟨by decide,
   classify_single_polarity "show dengue"
     { type := "show_layer", layer := some "dengue" }
     { type := "show_layer", layer := some "dengue" }
     (by decide) (by decide) rfl⟩

/-- C3: for every fetched feature sequence and every `max_items`, each
context builder's first summary line reports the size of the full
deduplicated name set, while the bulleted listing has exactly
`min max_items total` entries; truncation never changes the reported
total. -/
theorem context_builder_total_and_truncation (df : List DengueFeature)
    (pf : List PlanningFeature) (m : Nat) :
    (dengueBullets df m).length = min m (dengueTotal df)
  ∧ (∃ rest, dengueContext df m =
      "Latest dengue clusters: " ++ toString (dengueTotal df)
        ++ " unique clusters." ++ "\n" ++ rest)
  ∧ (planningBullets pf m).length = min m (planningTotal pf)
  ∧ (∃ rest, planningContext pf m =
      "Planning areas (year=" ++ "2019" ++ "): " ++ toString (planningTotal pf)
        ++ " total." ++ "\n" ++ rest) := by
  refine ⟨?_, ⟨?_, ?_⟩, ?_, ⟨?_, ?_⟩⟩
  · simp [dengueBullets, bulletsOfNames, dengueTotal, List.length_take]
  · exact "List (first "
      ++ toString ((dedupFirstSeen (dengueNames df)).take m).length ++ "):"
      ++ "\n" ++ joinSep "\n" (bulletsOfNames (dengueNames df) m)
  · simp [dengueContext, dengueContextOfNames, dengueTotal, String.append_assoc]
    rw [show (" unique clusters.\nList (first " : String)
        = " unique clusters.\n" ++ "List (first " from rfl,
      String.append_assoc]
  · simp [planningBullets, bulletsOfNames, planningTotal, List.length_take]
  · exact "List (first "
      ++ toString ((dedupFirstSeen (planningNames pf)).take m).length ++ "):"
      ++ "\n" ++ joinSep "\n" (bulletsOfNames (planningNames pf) m)
  · simp [planningContext, planningContextOfNames, planningTotal,
      String.append_assoc]
    rw [show (" total.\nList (first " : String)
        = " total.\n" ++ "List (first " from rfl,
      String.append_assoc]

theorem parseToolCall_valid (c : ToolCall) (i : Intent)
    (h : i ∈ parseToolCall c) : intentLayerValid i = true := by
  simp only [parseToolCall] at h
  split at h
  · split at h
    · rename_i l
      split at h
      · rename_i hc
        rw [List.mem_singleton] at h
        subst h
        simp [intentLayerValid]
        exact List.elem_iff.mp hc
      · simp at h
    · simp at h
  · split at h
    · split at h
      · rename_i l
        split at h
        · rename_i hc
          rw [List.mem_singleton] at h
          subst h
          simp [intentLayerValid]
          exact List.elem_iff.mp hc
        · simp at h
      · simp at h
    · split at h
      · rw [List.mem_singleton] at h
        subst h
        simp [intentLayerValid]
      · simp at h

theorem parseFunctionCall_valid (c : ToolCall) (i : Intent)
    (h : i ∈ parseFunctionCall c) : intentLayerValid i = true := by
  simp only [parseFunctionCall] at h
  split at h
  · split at h
    · rename_i l
      split at h
      · rename_i hc
        rw [List.mem_singleton] at h
        subst h
        simp [intentLayerValid]
        exact List.elem_iff.mp hc
      · simp at h
    · simp at h
  · split at h
    · split at h
      · rename_i l
        split at h
        · rename_i hc
          rw [List.mem_singleton] at h
          subst h
          simp [intentLayerValid]
          exact List.elem_iff.mp hc
        · simp at h
      · simp at h
    · split at h
      · rw [List.mem_singleton] at h
        subst h
        simp [intentLayerValid]
      · simp at h

theorem parseToolCall_eq_nil_of_dropped (c : ToolCall)
    (h : droppedCall c = true) : parseToolCall c = [] := by
  simp only [droppedCall, Bool.and_eq_true, Bool.or_eq_true,
    decide_eq_true_eq] at h
  obtain ⟨hname, hlayer⟩ := h
  cases hl : c.layer with
  | none =>
    rcases hname with hn | hn <;>
      simp [parseToolCall, hn, hl]
  | some l =>
    rw [hl] at hlayer
    simp only [Bool.not_eq_true'] at hlayer
    have hnm : l ∉ layerNames := by simpa using hlayer
    rcases hname with hn | hn <;>
      simp [parseToolCall, hn, hl, hnm]

theorem flatMap_filter_dropped (l : List ToolCall) :
    (l.filter (fun c => !droppedCall c)).flatMap parseToolCall
      = l.flatMap parseToolCall := by
  induction l with
  | nil => rfl
  | cons c t ih =>
    by_cases hd : droppedCall c = true
    · rw [List.filter_cons]
      simp only [hd, Bool.not_true]
      rw [if_neg (by simp), ih, List.flatMap_cons,
        parseToolCall_eq_nil_of_dropped c hd, List.nil_append]
    · have hdf : droppedCall c = false := Bool.eq_false_iff.mpr hd
      rw [List.filter_cons]
      rw [if_pos (show (!droppedCall c) = true by rw [hdf]; rfl)]
      rw [List.flatMap_cons, List.flatMap_cons, ih]

/-- C5: the tool-call parser validates every referenced layer against the
registry: a `show_layer`/`hide_layer` invocation with an unknown layer is
dropped (never raising), it contributes nothing to the returned intents,
and removing all such invocations from the response leaves the parse result
— including the free-text reply — unchanged. -/
theorem tool_parser_drops_unknown_layers (m : ModelMessage) :
    (∀ i ∈ (parseToolMessage m).intents, intentLayerValid i = true)
  ∧ parseToolMessage m =
      parseToolMessage
        ⟨m.content, m.tool_calls.filter (fun c => !droppedCall c),
         m.function_call⟩ := by
  constructor
  · intro i hi
    simp only [parseToolMessage] at hi
    split at hi
    · split at hi
      · rename_i fc _
        exact parseFunctionCall_valid fc i hi
      · exact absurd hi (List.not_mem_nil i)
    · obtain ⟨c, _, hc⟩ := List.mem_flatMap.mp hi
      exact parseToolCall_valid c i hc
  · simp only [parseToolMessage, flatMap_filter_dropped]

theorem tool_parser_drops_unknown_layers_witness :
    intentLayerValid ⟨"show_layer", some "dengue", some true⟩ = true
  ∧ parseToolMessage
      ⟨some " Done. ",
       [⟨some "show_layer", some "dengue", some true⟩,
        ⟨some "show_layer", some "rivers", none⟩,
        ⟨some "clear_all", none, none⟩], none⟩ =
    parseToolMessage
      ⟨some " Done. ",
       ([⟨some "show_layer", some "dengue", some true⟩,
         ⟨some "show_layer", some "rivers", none⟩,
         ⟨some "clear_all", none, none⟩] : List ToolCall).filter
          (fun c => !droppedCall c), none⟩ :=
  ⟨(tool_parser_drops_unknown_layers
      ⟨some " Done. ",
       [⟨some "show_layer", some "dengue", some true⟩,
        ⟨some "show_layer", some "rivers", none⟩,
        ⟨some "clear_all", none, none⟩], none⟩).1
      ⟨"show_layer", some "dengue", some true⟩
      (by decide),
   (tool_parser_drops_unknown_layers
      ⟨some " Done. ",
       [⟨some "show_layer", some "dengue", some true⟩,
        ⟨some "show_layer", some "rivers", none⟩,
        ⟨some "clear_all", none, none⟩], none⟩).2⟩

/-- C9: the welcome operation never returns an empty string; whenever the
plain model call is unconfigured or failed (a falsy outcome), the reply is
the registry-totals fallback, which starts with the fixed invitational
preamble. -/
theorem welcome_never_empty (az : Option String) (u : Upstream) :
    welcomeReply az u ≠ ""
  ∧ (optTruthy az = none →
      welcomeReply az u = welcomeFallback u
      ∧ welcomeIntro.data <+: (welcomeReply az u).data) := by
  cases haz : optTruthy az with
  | some r =>
    have hwr : welcomeReply az u = r := by simp [welcomeReply, haz]
    constructor
    · rw [hwr]
      exact optTruthy_some_ne az r haz
    · intro hn
      exact absurd hn (by simp)
  | none =>
    have hwr : welcomeReply az u = welcomeFallback u := by
      simp [welcomeReply, haz]
    have hintro : welcomeIntro ≠ "" := by decide
    constructor
    · rw [hwr]
      by_cases hb : (welcomeFallbackBits u).isEmpty = true
      · simp only [welcomeFallback, if_pos hb]
        exact hintro
      · simp only [welcomeFallback, if_neg hb]
        exact append_ne_empty_left _ _
          (append_ne_empty_left _ _ (append_ne_empty_left _ _ hintro))
    · intro _
      refine ⟨hwr, ?_⟩
      rw [hwr]
      by_cases hb : (welcomeFallbackBits u).isEmpty = true
      · simp only [welcomeFallback, if_pos hb]
        exact List.prefix_refl _
      · simp only [welcomeFallback, if_neg hb]
        rw [String.data_append, String.data_append, String.data_append,
          List.append_assoc, List.append_assoc]
        exact List.prefix_append _ _

theorem welcome_never_empty_witness :
    welcomeReply none ⟨[], []⟩ ≠ ""
  ∧ (welcomeReply none ⟨[], []⟩ = welcomeFallback ⟨[], []⟩
      ∧ welcomeIntro.data <+: (welcomeReply none ⟨[], []⟩).data) :=
  ⟨(welcome_never_empty none ⟨[], []⟩).1,
   (welcome_never_empty none ⟨[], []⟩).2 rfl⟩

/-- C1 (amended): the reply is the empty string only when the tool-calling
branch ran and returned a result object with no free text, and neither the
second model call nor the list/summarize pattern fallbacks produced text;
intents may nonetheless be present, because the tool-calling branch never
applies the per-intent phrase fallback.  The non-tool branch always
returns a non-empty reply, for every message including the empty one. -/
theorem chat_reply_empty_only_when_tool_fallbacks_exhausted
    (env : ChatEnv) (msg : String) :
    ((chatApi env msg).reply = "" →
      env.toolOut.isSome = true
      ∧ optTruthy (toolReplyOf env.toolOut) = none
      ∧ optTruthy env.azure = none
      ∧ toolListOpt env.up (toLowerStr msg) = none
      ∧ toolSummOpt env.up (toLowerStr msg) = none)
  ∧ (env.toolOut = none → (chatApi env msg).reply ≠ "") := by
  obtain ⟨tOpt, az, u⟩ := env
  by_cases hm : msg = ""
  · subst hm
    have h0 : (chatApi ⟨tOpt, az, u⟩ "").reply = "Please type a question." := rfl
    constructor
    · intro h
      rw [h0] at h
      exact absurd h (by decide)
    · intro _
      rw [h0]
      decide
  · cases tOpt with
    | none =>
      constructor
      · intro h
        rw [chatApi_noTool az u msg hm] at h
        exact absurd h (finalize_ne_empty _)
      · intro _
        rw [chatApi_noTool az u msg hm]
        exact finalize_ne_empty _
    | some t =>
      constructor
      · intro h
        rw [chatApi_tool t az u msg hm] at h
        dsimp only at h
        cases hr : orElseO (orElseO (orElseO (optTruthy t.reply) (optTruthy az))
            (toolListOpt u (toLowerStr msg))) (toolSummOpt u (toLowerStr msg)) with
        | none =>
          obtain ⟨h3, h4⟩ := orElseO_eq_none _ _ hr
          obtain ⟨h1, h2⟩ := orElseO_eq_none _ _ h3
          obtain ⟨ha, hb⟩ := orElseO_eq_none _ _ h1
          exact ⟨rfl, ha, hb, h2, h4⟩
        | some s =>
          rw [hr] at h
          simp only [Option.getD_some] at h
          subst h
          rcases orElseO_eq_some _ _ _ hr with h1 | ⟨_, h2⟩
          · rcases orElseO_eq_some _ _ _ h1 with h3 | ⟨_, h4⟩
            · rcases orElseO_eq_some _ _ _ h3 with h5 | ⟨_, h6⟩
              · exact absurd rfl (optTruthy_some_ne _ _ h5)
              · exact absurd rfl (optTruthy_some_ne _ _ h6)
            · exact absurd rfl (toolListOpt_some_ne u _ _ h4)
          · exact absurd rfl (toolSummOpt_some_ne u _ _ h2)
      · intro hcontra
        exact absurd hcontra (by simp)

theorem chat_reply_empty_only_when_tool_fallbacks_exhausted_witness :
    ((some (⟨none, []⟩ : ToolResult)).isSome = true
      ∧ optTruthy (toolReplyOf (some ⟨none, []⟩)) = none
      ∧ optTruthy (none : Option String) = none
      ∧ toolListOpt ⟨[], []⟩ (toLowerStr "hello") = none
      ∧ toolSummOpt ⟨[], []⟩ (toLowerStr "hello") = none)
  ∧ (chatApi ⟨none, none, ⟨[], []⟩⟩ "hello").reply ≠ "" :=
  ⟨(chat_reply_empty_only_when_tool_fallbacks_exhausted
      ⟨some ⟨none, []⟩, none, ⟨[], []⟩⟩ "hello").1 (by decide),
   (chat_reply_empty_only_when_tool_fallbacks_exhausted
      ⟨none, none, ⟨[], []⟩⟩ "hello").2 rfl⟩

/-- C1 counterexample: in the tool-calling branch the reply can be empty
even though intents were produced — the model returned only tool calls,
the second model call failed, the message matches no list/summarize
pattern, and the branch has no per-intent phrase step.  This contradicts
the claim that an empty reply requires that no intents were produced. -/
theorem chat_reply_empty_despite_intents :
    (chatApi ⟨some ⟨none, [⟨"show_layer", some "dengue", none⟩]⟩, none, ⟨[], []⟩⟩
        "enable dengue").reply = ""
  ∧ (chatApi ⟨some ⟨none, [⟨"show_layer", some "dengue", none⟩]⟩, none, ⟨[], []⟩⟩
        "enable dengue").intents ≠ [] :=
  ⟨by decide, by decide⟩

/-- C2 (amended): with no model backend, `"show clusters"` always yields
exactly the single `show_layer dengue` intent; the reply is the fixed
phrase "Showing dengue hotspots on the map." exactly when the dengue
context lists no names (e.g. upstream unavailable).  When dengue data is
present the deterministic list flow answers with the titled cluster
listing instead (and hence not the fixed phrase), because the message
contains the word "show". -/
theorem show_clusters_unconfigured (env : ChatEnv)
    (h : env.toolOut = none) :
    (chatApi env "show clusters").intents
        = [{ type := "show_layer", layer := some "dengue" }]
  ∧ (dengueNames env.up.dengue = [] →
      (chatApi env "show clusters").reply
        = "Showing dengue hotspots on the map.")
  ∧ (dengueNames env.up.dengue ≠ [] →
      (chatApi env "show clusters").reply
          = titleOf "dengue" ++ ":\n" ++ joinSep "\n"
              (((splitLines (buildContext env.up "dengue" 300)).filter
                (fun ln => startsWithStr ln "- ")).take 100)
      ∧ (chatApi env "show clusters").reply
          ≠ "Showing dengue hotspots on the map.")
  ∧ ((chatApi env "show clusters").reply = "Showing dengue hotspots on the map."
      ↔ dengueNames env.up.dengue = []) := by
  obtain ⟨tOpt, az, u⟩ := env
  have ht : tOpt = none := h
  subst ht
  have hlow : toLowerStr "show clusters" = "show clusters" := by decide
  have hreplyNil : dengueNames u.dengue = [] →
      (chatApi ⟨none, az, u⟩ "show clusters").reply
        = "Showing dengue hotspots on the map." := by
    intro hd
    rw [chatApi_noTool az u "show clusters" (by decide)]
    dsimp only
    rw [hlow]
    have hctx : buildContext u "dengue" 300 = dengueContextOfNames [] 300 := by
      show dengueContextOfNames (dengueNames u.dengue) 300
        = dengueContextOfNames [] 300
      rw [hd]
    have hentry : listEntry u "dengue" = none := by
      simp only [listEntry, hctx]
      decide
    have hbucket : listBucket u "show clusters" = [] := by
      simp only [listBucket]
      rw [show detectLayers "show clusters" = ["dengue"] from by decide,
        List.filterMap_cons]
      simp [hentry]
    have hdet : detOpt u "show clusters" = none := by
      simp only [detOpt]
      rw [if_pos (show wordRegex ["list", "show"] "show clusters" = true
        from by decide)]
      simp only [hbucket]
      decide
    rw [hdet]
    have hphr : (if (none : Option String).isNone
          && !(classifyIntents "show clusters").isEmpty
        then phrasesOpt (classifyIntents "show clusters")
        else (none : Option String))
        = some "Showing dengue hotspots on the map." := by decide
    rw [hphr]
    rfl
  have hreplyCons : dengueNames u.dengue ≠ [] →
      (chatApi ⟨none, az, u⟩ "show clusters").reply
        = titleOf "dengue" ++ ":\n" ++ joinSep "\n"
            (((splitLines (buildContext u "dengue" 300)).filter
              (fun ln => startsWithStr ln "- ")).take 100) := by
    intro hne
    obtain ⟨n, ns, hd⟩ : ∃ n ns, dengueNames u.dengue = n :: ns := by
      cases hx : dengueNames u.dengue with
      | nil => exact absurd hx hne
      | cons n ns => exact ⟨n, ns, rfl⟩
    have hentry := listEntry_dengue_some u n ns hd
    have hbucket : listBucket u "show clusters"
        = [titleOf "dengue" ++ ":\n" ++ joinSep "\n"
            (((splitLines (buildContext u "dengue" 300)).filter
              (fun ln => startsWithStr ln "- ")).take 100)] := by
      simp only [listBucket]
      rw [show detectLayers "show clusters" = ["dengue"] from by decide]
      simp [hentry]
    have hdet : detOpt u "show clusters"
        = some (titleOf "dengue" ++ ":\n" ++ joinSep "\n"
            (((splitLines (buildContext u "dengue" 300)).filter
              (fun ln => startsWithStr ln "- ")).take 100)) := by
      simp only [detOpt]
      rw [if_pos (show wordRegex ["list", "show"] "show clusters" = true
        from by decide)]
      rw [hbucket]
      rfl
    have horelse : ∀ (y : Option String) (s : String),
        orElseO (some s) y = some s := fun _ _ => rfl
    have hne2 : titleOf "dengue" ++ ":\n" ++ joinSep "\n"
        (((splitLines (buildContext u "dengue" 300)).filter
          (fun ln => startsWithStr ln "- ")).take 100) ≠ "" :=
      append_ne_empty_left _ _
        (append_ne_empty_right _ _ (by decide : (":\n" : String) ≠ ""))
    rw [chatApi_noTool az u "show clusters" (by decide)]
    dsimp only
    rw [hlow, hdet]
    rw [if_neg (by simp)]
    rw [horelse]
    simp [finalize, hne2]
  have hneq : dengueNames u.dengue ≠ [] →
      (chatApi ⟨none, az, u⟩ "show clusters").reply
        ≠ "Showing dengue hotspots on the map." := by
    intro hne
    rw [hreplyCons hne]
    exact dengue_section_ne_phrase _
  refine ⟨?_, hreplyNil, fun hne => ⟨hreplyCons hne, hneq hne⟩, ?_⟩
  · rw [chatApi_noTool az u "show clusters" (by decide)]
    dsimp only
    decide
  · constructor
    · intro hp
      by_cases hd : dengueNames u.dengue = []
      · exact hd
      · exact absurd hp (hneq hd)
    · exact hreplyNil

theorem show_clusters_unconfigured_witness :
    (chatApi ⟨none, none, ⟨[], []⟩⟩ "show clusters").intents
        = [{ type := "show_layer", layer := some "dengue" }]
  ∧ (chatApi ⟨none, none, ⟨[], []⟩⟩ "show clusters").reply
        = "Showing dengue hotspots on the map."
  ∧ ((chatApi ⟨none, none, ⟨[⟨some "ALJUNIED", none, none, none⟩], []⟩⟩
        "show clusters").reply
      = titleOf "dengue" ++ ":\n" ++ joinSep "\n"
          (((splitLines (buildContext ⟨[⟨some "ALJUNIED", none, none, none⟩], []⟩
              "dengue" 300)).filter (fun ln => startsWithStr ln "- ")).take 100)
    ∧ (chatApi ⟨none, none, ⟨[⟨some "ALJUNIED", none, none, none⟩], []⟩⟩
        "show clusters").reply ≠ "Showing dengue hotspots on the map.") :=
  ⟨(show_clusters_unconfigured ⟨none, none, ⟨[], []⟩⟩ rfl).1,
   (show_clusters_unconfigured ⟨none, none, ⟨[], []⟩⟩ rfl).2.1 rfl,
   (show_clusters_unconfigured
      ⟨none, none, ⟨[⟨some "ALJUNIED", none, none, none⟩], []⟩⟩ rfl).2.2.1
      (by decide)⟩

/-- C2 counterexample: with a dengue feature upstream, the same
unconfigured request answers with the deterministic cluster listing, not
the fixed phrase, refuting the claim for every upstream data state (the
intent part still holds). -/
theorem show_clusters_reply_lists_when_data_present :
    (chatApi ⟨none, none, ⟨[{ dESCRIPTION := some "ALJUNIED" }], []⟩⟩
        "show clusters").reply = "Dengue Hotspots:\n- ALJUNIED"
  ∧ (chatApi ⟨none, none, ⟨[{ dESCRIPTION := some "ALJUNIED" }], []⟩⟩
        "show clusters").reply ≠ "Showing dengue hotspots on the map."
  ∧ (chatApi ⟨none, none, ⟨[{ dESCRIPTION := some "ALJUNIED" }], []⟩⟩
        "show clusters").intents
      = [{ type := "show_layer", layer := some "dengue" }] :=
  ⟨by decide, by decide, by decide⟩

/-- C4 (amended): for every message matching the summarize/summary pattern
and not the list/show pattern, in the non-tool branch, the deterministic
reply contains, for each matched layer whose extracted total is nonzero,
that layer's full sentence stating the total followed by up to 5 example
names; a layer whose `total_pattern` yields 0 produces no sentence (the
`if total:` guard skips it), and when every matched layer's total is 0 the
summarize flow produces no reply at all. -/
theorem summarize_flow_nonzero_totals (env : ChatEnv) (msg key : String) :
    (env.toolOut = none → ¬ msg = "" →
      wordRegex ["list", "show"] (toLowerStr msg) = false →
      wordRegex ["summarize", "summary"] (toLowerStr msg) = true →
      key ∈ detectLayers (toLowerStr msg) →
      (searchTotalStr (kwOf key) (buildContext env.up key 50)).getD 0 ≠ 0 →
      (titleOf key ++ ": "
        ++ toString ((searchTotalStr (kwOf key) (buildContext env.up key 50)).getD 0)
        ++ " items."
        ++ (if ((((splitLines (buildContext env.up key 50)).filter
                (fun ln => startsWithStr ln "- ")).map
                (fun ln => strDrop ln 2)).take 5).isEmpty
            then ""
            else " Examples: " ++ joinSep ", "
              ((((splitLines (buildContext env.up key 50)).filter
                (fun ln => startsWithStr ln "- ")).map
                (fun ln => strDrop ln 2)).take 5) ++ ".")).data
        <:+: ((chatApi env msg).reply).data)
  ∧ ((searchTotalStr (kwOf key) (buildContext env.up key 50)).getD 0 = 0 →
      summEntry env.up key = none)
  ∧ ((∀ k ∈ detectLayers (toLowerStr msg),
        (searchTotalStr (kwOf k) (buildContext env.up k 50)).getD 0 = 0) →
      toolSummOpt env.up (toLowerStr msg) = none) := by
  obtain ⟨tOpt, az, u⟩ := env
  refine ⟨?_, ?_, ?_⟩
  · intro h1 h2 h3 h4 h5 h6
    have ht : tOpt = none := h1
    subst ht
    cases hse : summEntry u key with
    | none =>
      exfalso
      simp only [summEntry] at hse
      rw [if_neg h6] at hse
      exact absurd hse (by simp)
    | some p =>
      have hp : p = titleOf key ++ ": "
          ++ toString ((searchTotalStr (kwOf key) (buildContext u key 50)).getD 0)
          ++ " items."
          ++ (if ((((splitLines (buildContext u key 50)).filter
                  (fun ln => startsWithStr ln "- ")).map
                  (fun ln => strDrop ln 2)).take 5).isEmpty
              then ""
              else " Examples: " ++ joinSep ", "
                ((((splitLines (buildContext u key 50)).filter
                  (fun ln => startsWithStr ln "- ")).map
                  (fun ln => strDrop ln 2)).take 5) ++ ".") := by
        simp only [summEntry] at hse
        rw [if_neg h6] at hse
        exact (Option.some_inj.mp hse).symm
      have hmem : p ∈ summBucket u (toLowerStr msg) :=
        List.mem_filterMap.mpr ⟨key, h5, hse⟩
      have hbne : summBucket u (toLowerStr msg) ≠ [] := List.ne_nil_of_mem hmem
      have hsumm : toolSummOpt u (toLowerStr msg)
          = some (joinSep " " (summBucket u (toLowerStr msg))) := by
        simp only [toolSummOpt]
        rw [if_pos h4, if_neg (by simp [List.isEmpty_eq_false.mpr hbne])]
      have hdet : detOpt u (toLowerStr msg)
          = some (joinSep " " (summBucket u (toLowerStr msg))) := by
        simp only [detOpt]
        rw [if_neg (by simp [h3])]
        exact hsumm
      have hjne : joinSep " " (summBucket u (toLowerStr msg)) ≠ "" := by
        cases hb : summBucket u (toLowerStr msg) with
        | nil => exact absurd hb hbne
        | cons q rest =>
          have hqmem : q ∈ summBucket u (toLowerStr msg) := by
            rw [hb]; exact List.mem_cons_self _ _
          obtain ⟨k2, _, hk2⟩ := List.mem_filterMap.mp hqmem
          exact joinSep_ne_empty_of_head _ _ _ (summEntry_some_ne u k2 q hk2)
      have hreply : (chatApi ⟨none, az, u⟩ msg).reply
          = joinSep " " (summBucket u (toLowerStr msg)) := by
        rw [chatApi_noTool az u msg h2]
        dsimp only
        rw [hdet]
        rw [if_neg (by simp)]
        rw [show orElseO (some (joinSep " " (summBucket u (toLowerStr msg))))
            (optTruthy az) = some (joinSep " " (summBucket u (toLowerStr msg)))
          from rfl]
        simp [finalize, hjne]
      have hmem2 := hp ▸ hmem
      rw [hreply]
      exact joinSep_infix_of_mem " " _ _ hmem2
  · intro h0
    simp only [summEntry]
    rw [if_pos h0]
  · intro hall
    have hbucket : summBucket u (toLowerStr msg) = [] := by
      simp only [summBucket]
      rw [List.filterMap_eq_nil_iff]
      intro k hk
      have h0 := hall k hk
      simp only [summEntry]
      rw [if_pos h0]
    simp only [toolSummOpt]
    split
    · rw [hbucket]
      rfl
    · rfl

theorem summarize_flow_nonzero_totals_witness :
    ("Dengue Hotspots: 1 items. Examples: ALJUNIED.").data
      <:+: ((chatApi ⟨none, none, ⟨[{ dESCRIPTION := some "ALJUNIED" }], []⟩⟩
        "summarize dengue").reply).data
  ∧ summEntry (⟨[], []⟩ : Upstream) "dengue" = none
  ∧ toolSummOpt (⟨[], []⟩ : Upstream) (toLowerStr "summary") = none :=
  ⟨(summarize_flow_nonzero_totals
      ⟨none, none, ⟨[{ dESCRIPTION := some "ALJUNIED" }], []⟩⟩
      "summarize dengue" "dengue").1 rfl (by decide) (by decide) (by decide)
      (by decide) (by decide),
   (summarize_flow_nonzero_totals ⟨none, none, ⟨[], []⟩⟩ "summary" "dengue").2.1
      (by decide),
   (summarize_flow_nonzero_totals ⟨none, none, ⟨[], []⟩⟩ "summary" "dengue").2.2
      (by decide)⟩

/-- C4 counterexample: `"summary"` matches the summarize pattern and no
layer, so every registry layer is targeted; with empty upstream data every
extracted total is 0, so the flow produces no sentence at all and the
chat falls through to the static reply — refuting "one short sentence per
matched layer" (any such sentence would contain " items."). -/
theorem summarize_flow_skips_zero_totals :
    (chatApi ⟨none, none, ⟨[], []⟩⟩ "summary").reply = staticReply
  ∧ containsSub (chatApi ⟨none, none, ⟨[], []⟩⟩ "summary").reply " items."
      = false :=
  ⟨by decide, by decide⟩

end NeaSgMap
